import Mathlib

/-!
Verification of the tumiki-mcp-http-adapter process executor and HTTP proxy
against its natural-language specification.

The Go sources are shallowly embedded:

* `internal/process/executor.go` — `Execute` runs one child process: it
  acquires the three standard-stream pipes, starts the process, spawns a
  bare goroutine copying stderr into a buffer, writes the input plus a
  newline to stdin, closes stdin, reads the first stdout line with a
  `bufio.Scanner`, and calls `cmd.Wait`.  The interaction with the
  operating system and the child is abstracted into a `ChildBehavior`
  record holding the outcome the environment presents at each step; the
  embedded `Execute` is a transliteration of the Go control flow over that
  record, additionally returning the ordered trace of effect events the
  call performs (pipe writes, stdin close, the stderr-goroutine spawn, the
  scan, `cmd.Wait`, any join of the goroutine, and the structured-log read
  of the stderr buffer).

* `bufio.Scanner` with the default `ScanLines` split and the default
  64 KiB token limit is embedded as `scanFirstLine` over byte lists.

* `internal/headers/parser.go` — `ParseCustomHeaders` over association
  lists; Go map assignment is `mapSet`, `http.Header.Get` is an abstract
  function returning `""` for an absent header, exactly as Go does.

* `internal/proxy/server.go` (`handleMCP`) — embedded as a function from
  the shared `Config`, the child behavior and the request to the post-call
  configuration, the executor invocation it makes (if any) and the HTTP
  response.
-/

deriving instance DecidableEq for Except

namespace Tumiki

/-! ## Byte streams and the bufio scanner model -/

/-- Go `bufio.dropCR`: drops one terminal carriage return from a line. -/
def dropCR (l : List Nat) : List Nat :=
  if l.getLast? = some 13 then l.dropLast else l

/-- Index of the first newline byte (10) in a byte stream, if any. -/
def findNewline : List Nat → Option Nat
  | [] => none
  | b :: rest => if b = 10 then some 0 else (findNewline rest).map (· + 1)

/-- `bufio.MaxScanTokenSize`: the scanner's default maximum token size. -/
def maxScanTokenSize : Nat := 65536

/-- Length of the first line of a stream: up to the first newline, or the
whole stream when it contains none. -/
def firstLineLength (s : List Nat) : Nat :=
  (findNewline s).getD s.length

/-- The first `scanner.Scan()` on a byte stream, with the default
`ScanLines` split and the default buffer limit of `maxScanTokenSize`
bytes.  A newline within the first 65536 buffered bytes yields the line
before it (terminal `\r` dropped); a stream of at least 65536 bytes with
no newline among them overflows the buffer (`bufio.ErrTooLong`); a
shorter stream without a newline is returned whole as the final token at
end of file, and an empty stream yields no token, which `Execute` leaves
as the nil response. -/
def scanFirstLine (s : List Nat) : Except String (List Nat) :=
  match findNewline s with
  | some p =>
      if p < maxScanTokenSize then .ok (dropCR (s.take p))
      else .error "bufio.Scanner: token too long"
  | none =>
      if maxScanTokenSize ≤ s.length then .error "bufio.Scanner: token too long"
      else .ok (dropCR s)

/-! ## The process executor (`internal/process/executor.go`) -/

/-- The wrapped errors `Execute` can return, one constructor per
`fmt.Errorf` site in the source, carrying the wrapped error text. -/
inductive ExecError
  | stdinPipe (msg : String)
  | stdoutPipe (msg : String)
  | stderrPipe (msg : String)
  | processStart (msg : String)
  | writeStdin (msg : String)
  | writeNewline (msg : String)
  | readStdout (msg : String)
  | processWait (msg : String)
deriving DecidableEq, Repr

/-- Effect events of one `Execute` call, in program order. -/
inductive Event
  | spawnStderrDrain
  | writeInput (bs : List Nat)
  | writeNewlineByte
  | closeStdin
  | scanStdout
  | waitProcess
  | joinStderrDrain
  | logStderr (bs : List Nat)
deriving DecidableEq, Repr

/-- What the operating system and the child present to one `Execute`
call: the outcome of each pipe acquisition, of `cmd.Start`, of the two
stdin writes, the bytes the child puts on stdout and stderr, an optional
mid-read stream error surfaced by `scanner.Err()`, and the outcome of
`cmd.Wait` (`none` = exit status 0).  `ctxDoneBeforeExit` records the
environment fact that the context was cancelled or timed out before the
child exited on its own (in which case `exec.CommandContext`'s watchdog
kills the child and `cmd.Wait` reports the kill status); the executor
code itself never branches on it.  `hasLogger` is whether the executor
was built with a non-nil logger. -/
structure ChildBehavior where
  stdinPipeErr : Option String
  stdoutPipeErr : Option String
  stderrPipeErr : Option String
  startErr : Option String
  writeInputErr : Option String
  writeNewlineErr : Option String
  scanReadErr : Option String
  stdoutData : List Nat
  stderrData : List Nat
  waitErr : Option String
  ctxDoneBeforeExit : Bool
  hasLogger : Bool
deriving DecidableEq, Repr

/-- Shallow embedding of `(e *Executor) Execute(ctx, input)`, returning
the result and the trace of effect events.  Transliterated from the
source: pipe failures and start failure return before anything runs; the
stderr drain is a bare `go func(){ io.Copy(&stderrBuf, stderr) }()` —
the code contains no `sync.WaitGroup` or channel, so no
`Event.joinStderrDrain` is ever emitted; a failed stdin write or a
scanner error returns immediately, without `cmd.Wait`; on a `cmd.Wait`
error the accumulated stderr buffer is read and logged (when a logger is
set) and the wrapped wait error is returned; otherwise the scanned first
line is returned. -/
def Execute (b : ChildBehavior) (input : List Nat) :
    Except ExecError (List Nat) × List Event :=
  match b.stdinPipeErr with
  | some e => (.error (.stdinPipe e), [])
  | none =>
  match b.stdoutPipeErr with
  | some e => (.error (.stdoutPipe e), [])
  | none =>
  match b.stderrPipeErr with
  | some e => (.error (.stderrPipe e), [])
  | none =>
  match b.startErr with
  | some e => (.error (.processStart e), [])
  | none =>
  match b.writeInputErr with
  | some e => (.error (.writeStdin e), [.spawnStderrDrain, .writeInput input])
  | none =>
  match b.writeNewlineErr with
  | some e =>
      (.error (.writeNewline e),
       [.spawnStderrDrain, .writeInput input, .writeNewlineByte])
  | none =>
  match b.scanReadErr with
  | some e =>
      (.error (.readStdout e),
       [.spawnStderrDrain, .writeInput input, .writeNewlineByte,
        .closeStdin, .scanStdout])
  | none =>
  match scanFirstLine b.stdoutData with
  | .error e =>
      (.error (.readStdout e),
       [.spawnStderrDrain, .writeInput input, .writeNewlineByte,
        .closeStdin, .scanStdout])
  | .ok response =>
  match b.waitErr with
  | some w =>
      (.error (.processWait w),
       [.spawnStderrDrain, .writeInput input, .writeNewlineByte,
        .closeStdin, .scanStdout, .waitProcess]
         ++ (if b.hasLogger then [.logStderr b.stderrData] else []))
  | none =>
      (.ok response,
       [.spawnStderrDrain, .writeInput input, .writeNewlineByte,
        .closeStdin, .scanStdout, .waitProcess])

/-- A child behaving like `cat`: every stream interaction succeeds and
standard output echoes the transmitted input followed by the newline the
executor appended. -/
def echoBehavior (input : List Nat) : ChildBehavior :=
  { stdinPipeErr := none, stdoutPipeErr := none, stderrPipeErr := none
    startErr := none, writeInputErr := none, writeNewlineErr := none
    scanReadErr := none
    stdoutData := input ++ [10], stderrData := []
    waitErr := none, ctxDoneBeforeExit := false, hasLogger := true }

/-- A child that writes `boom` to stderr, writes nothing to stdout, and
exits with status 1, run with a logger installed. -/
def failingChild : ChildBehavior :=
  { stdinPipeErr := none, stdoutPipeErr := none, stderrPipeErr := none
    startErr := none, writeInputErr := none, writeNewlineErr := none
    scanReadErr := none
    stdoutData := [], stderrData := [98, 111, 111, 109]
    waitErr := some "exit status 1", ctxDoneBeforeExit := false
    hasLogger := true }

/-- `failingChild` with an empty stderr stream. -/
def failingChildQuiet : ChildBehavior :=
  { failingChild with stderrData := [] }

/-- A child whose stdin write fails mid-exchange with a broken pipe
(for instance a child that exits before reading its input). -/
def brokenPipeChild : ChildBehavior :=
  { failingChild with writeInputErr := some "write |1: broken pipe" }

/-- A call whose context deadline expires while the executor is blocked
reading stdout: the `exec.CommandContext` watchdog kills the child, the
stdout pipe reaches end-of-stream, and `cmd.Wait` reports the kill. -/
def cancelledChild : ChildBehavior :=
  { failingChild with
    waitErr := some "signal: killed",
    ctxDoneBeforeExit := true }

/-- A child that kills itself with SIGKILL; the context is never
cancelled, so this is a plain process failure, yet `cmd.Wait` reports
the identical status text. -/
def selfKilledChild : ChildBehavior :=
  { failingChild with
    waitErr := some "signal: killed",
    ctxDoneBeforeExit := false }

/-- A child whose first stdout line is 65537 bytes of `a` and no
newline at all. -/
def bigLineChild : ChildBehavior :=
  { failingChild with
    stdoutData := List.replicate 65537 97,
    stderrData := [],
    waitErr := none }

/-! ## Scanner lemmas -/

theorem findNewline_eq_none (l : List Nat) (h : 10 ∉ l) :
    findNewline l = none := by
  induction l with
  | nil => rfl
  | cons b t ih =>
      have hb : ¬ b = 10 := fun hb => h (by simp [hb])
      have ht : 10 ∉ t := fun m => h (List.mem_cons_of_mem _ m)
      simp [findNewline, hb, ih ht]

theorem findNewline_append_newline (l r : List Nat) (h : 10 ∉ l) :
    findNewline (l ++ 10 :: r) = some l.length := by
  induction l with
  | nil => simp [findNewline]
  | cons b t ih =>
      have hb : ¬ b = 10 := fun hb => h (by simp [hb])
      have ht : 10 ∉ t := fun m => h (List.mem_cons_of_mem _ m)
      simp [findNewline, hb, ih ht]

theorem dropCR_of_no_cr (l : List Nat) (h : l.getLast? ≠ some 13) :
    dropCR l = l := by
  simp [dropCR, h]

theorem dropCR_length_le (l : List Nat) : (dropCR l).length ≤ l.length := by
  unfold dropCR
  split
  · simp [List.length_dropLast]
  · exact le_refl _

/-- On the stream an echoing child produces from a newline-free input
that does not end in a carriage return and fits the scanner's buffer,
the first scan yields exactly the input. -/
theorem scanFirstLine_echo (input : List Nat) (h10 : 10 ∉ input)
    (h13 : input.getLast? ≠ some 13)
    (hlen : input.length < maxScanTokenSize) :
    scanFirstLine (input ++ [10]) = .ok input := by
  have hf : findNewline (input ++ 10 :: []) = some input.length :=
    findNewline_append_newline input [] h10
  simp only [scanFirstLine, List.append_eq, hf, hlen, if_pos]
  rw [List.take_left]
  rw [dropCR_of_no_cr input h13]

theorem scanFirstLine_error_of_long (s : List Nat)
    (h : maxScanTokenSize < firstLineLength s) :
    scanFirstLine s = .error "bufio.Scanner: token too long" := by
  unfold scanFirstLine
  unfold firstLineLength at h
  cases hf : findNewline s with
  | some p =>
      rw [hf] at h
      simp only [Option.getD_some] at h
      have : ¬ p < maxScanTokenSize := by omega
      simp [this]
  | none =>
      rw [hf] at h
      simp only [Option.getD_none] at h
      have : maxScanTokenSize ≤ s.length := by omega
      simp [this]

theorem scanFirstLine_length_le (s out : List Nat)
    (h : scanFirstLine s = .ok out) : out.length ≤ maxScanTokenSize := by
  unfold scanFirstLine at h
  cases hf : findNewline s with
  | some p =>
      rw [hf] at h
      by_cases hp : p < maxScanTokenSize
      · simp only [hp, if_pos, Except.ok.injEq] at h
        calc out.length = (dropCR (s.take p)).length := by rw [h]
          _ ≤ (s.take p).length := dropCR_length_le _
          _ ≤ p := by simp [List.length_take]
          _ ≤ maxScanTokenSize := le_of_lt hp
      · simp [hp] at h
  | none =>
      rw [hf] at h
      by_cases hl : maxScanTokenSize ≤ s.length
      · simp [hl] at h
      · simp only [hl, if_neg, if_false, Except.ok.injEq] at h
        calc out.length = (dropCR s).length := by rw [h]
          _ ≤ s.length := dropCR_length_le _
          _ ≤ maxScanTokenSize := le_of_lt (by omega)

/-- If a call to the embedded `Execute` succeeds, its output is the
first scanned line of the child's stdout stream. -/
theorem Execute_ok_scan (b : ChildBehavior) (input out : List Nat)
    (h : (Execute b input).1 = .ok out) :
    scanFirstLine b.stdoutData = .ok out := by
  unfold Execute at h
  repeat' split at h
  all_goals simp_all

/-! ## Claims about the process executor -/

/-- C1: the claim says the stderr-draining task's completion is awaited
exactly once, after process exit and before `Execute` returns, and the
stderr buffer is not read until that join completes.  Evaluating the
embedded code on a child that exits non-zero after writing `boom` to
stderr shows the complete effect trace of the call: the drain goroutine
is spawned and the accumulated stderr buffer is read for the structured
log after `cmd.Wait`, but no join of the drain task ever occurs — the
source has no `sync.WaitGroup`, channel or other completion primitive,
contradicting the claim (and the repository's own design documents). -/
theorem c1_drain_never_joined_trace :
    (Execute failingChild [104, 105]).2 =
      [.spawnStderrDrain, .writeInput [104, 105], .writeNewlineByte,
       .closeStdin, .scanStdout, .waitProcess,
       .logStderr [98, 111, 111, 109]] ∧
    (Execute failingChild [104, 105]).1 =
      .error (.processWait "exit status 1") := by
  constructor
  · rfl
  · rfl

/-- C2 counterexample: a call killed by its context deadline and a call
whose child killed itself with SIGKILL (no cancellation at all) return
literally identical errors, so the cancellation/timeout outcome is not
reported distinctly from a process failure, refuting the claim as
stated. -/
theorem c2_counterexample_cancellation_not_distinct :
    cancelledChild.ctxDoneBeforeExit = true ∧
    selfKilledChild.ctxDoneBeforeExit = false ∧
    (Execute cancelledChild []).1 = .error (.processWait "signal: killed") ∧
    (Execute selfKilledChild []).1 = .error (.processWait "signal: killed") ∧
    (Execute cancelledChild []).1 = (Execute selfKilledChild []).1 := by
  refine ⟨rfl, rfl, rfl, rfl, rfl⟩

/-- C2 amended: when the context is cancelled or times out before the
child exits and the cancellation surfaces while `Execute` is reading
stdout (the stream reaching end-of-stream, the earlier writes having
succeeded), the child is killed by the `exec.CommandContext` watchdog
and `Execute` reaches `cmd.Wait`, reaping it before returning; but the
error returned is the generic process-wait wrapping of the kill status,
the same form as a non-zero exit. -/
theorem c2_cancelled_call_reaps_on_wait_path (b : ChildBehavior)
    (input resp : List Nat) (w : String)
    (h1 : b.stdinPipeErr = none) (h2 : b.stdoutPipeErr = none)
    (h3 : b.stderrPipeErr = none) (h4 : b.startErr = none)
    (h5 : b.writeInputErr = none) (h6 : b.writeNewlineErr = none)
    (h7 : b.scanReadErr = none)
    (h8 : scanFirstLine b.stdoutData = .ok resp)
    (_hc : b.ctxDoneBeforeExit = true)
    (h9 : b.waitErr = some w) :
    (Execute b input).1 = .error (.processWait w) ∧
    Event.waitProcess ∈ (Execute b input).2 := by
  simp [Execute, h1, h2, h3, h4, h5, h6, h7, h8, h9]

theorem c2_cancelled_call_reaps_on_wait_path_witness :
    (Execute cancelledChild []).1 = .error (.processWait "signal: killed") ∧
    Event.waitProcess ∈ (Execute cancelledChild []).2 :=
  c2_cancelled_call_reaps_on_wait_path cancelledChild [] [] "signal: killed"
    rfl rfl rfl rfl rfl rfl rfl rfl rfl rfl

/-- C3: the claim says that after a mid-exchange stream failure the
child is still waited on and reaped before `Execute` returns.
Evaluating the embedded code on a child whose stdin write fails with a
broken pipe shows `Execute` returning the wrapped write error with a
trace that stops at the failed write: `cmd.Wait` is never called, so the
started child is not reaped, contradicting the claim. -/
theorem c3_io_error_returns_without_reaping :
    (Execute brokenPipeChild [104, 105]).1 =
      .error (.writeStdin "write |1: broken pipe") ∧
    (Execute brokenPipeChild [104, 105]).2 =
      [.spawnStderrDrain, .writeInput [104, 105]] := by
  refine ⟨rfl, rfl⟩

/-- C4 counterexample: two non-zero-exit runs that differ only in the
child's stderr output (`boom` versus nothing) make `Execute` return
literally identical errors, so the returned execution error does not
carry the accumulated standard-error text, refuting the claim as
stated. -/
theorem c4_counterexample_error_carries_no_stderr :
    failingChild.stderrData = [98, 111, 111, 109] ∧
    failingChildQuiet.stderrData = [] ∧
    (Execute failingChild []).1 = (Execute failingChildQuiet []).1 := by
  refine ⟨rfl, rfl, rfl⟩

/-- C4 amended: when the child exits with a non-zero status, `Execute`
returns an error wrapping only the `cmd.Wait` failure text; the
accumulated stderr buffer is instead read and emitted to the structured
log (when a logger is installed) as diagnostic context. -/
theorem c4_nonzero_exit_logs_stderr (b : ChildBehavior)
    (input resp : List Nat) (w : String)
    (h1 : b.stdinPipeErr = none) (h2 : b.stdoutPipeErr = none)
    (h3 : b.stderrPipeErr = none) (h4 : b.startErr = none)
    (h5 : b.writeInputErr = none) (h6 : b.writeNewlineErr = none)
    (h7 : b.scanReadErr = none)
    (h8 : scanFirstLine b.stdoutData = .ok resp)
    (h9 : b.waitErr = some w) (hl : b.hasLogger = true) :
    (Execute b input).1 = .error (.processWait w) ∧
    Event.logStderr b.stderrData ∈ (Execute b input).2 := by
  simp [Execute, h1, h2, h3, h4, h5, h6, h7, h8, h9, hl]

theorem c4_nonzero_exit_logs_stderr_witness :
    (Execute failingChild []).1 = .error (.processWait "exit status 1") ∧
    Event.logStderr failingChild.stderrData ∈ (Execute failingChild []).2 :=
  c4_nonzero_exit_logs_stderr failingChild [] [] "exit status 1"
    rfl rfl rfl rfl rfl rfl rfl rfl rfl rfl

/-- C5 counterexample: the claim asserts the round trip for every input
byte sequence, but for the input `a\nb` an echoing child's first stdout
line is just `a`, so `Execute` returns `a`, not the transmitted
input. -/
theorem c5_counterexample_embedded_newline :
    (Execute (echoBehavior [97, 10, 98]) [97, 10, 98]).1 = .ok [97] ∧
    (Execute (echoBehavior [97, 10, 98]) [97, 10, 98]).1 ≠
      .ok [97, 10, 98] := by
  refine ⟨rfl, by decide⟩

/-- C5 amended: for every input that contains no newline byte, does not
end in a carriage return, and is shorter than the scanner's 65536-byte
token limit, `Execute` against an echoing child writes the full input
to stdin, writes the single trailing newline, closes stdin, scans, waits,
and returns exactly the transmitted input. -/
theorem c5_round_trip_single_line (input : List Nat) (h10 : 10 ∉ input)
    (h13 : input.getLast? ≠ some 13)
    (hlen : input.length < maxScanTokenSize) :
    (Execute (echoBehavior input) input).1 = .ok input ∧
    (Execute (echoBehavior input) input).2 =
      [.spawnStderrDrain, .writeInput input, .writeNewlineByte,
       .closeStdin, .scanStdout, .waitProcess] := by
  have hs := scanFirstLine_echo input h10 h13 hlen
  simp [Execute, echoBehavior, hs]

theorem c5_round_trip_single_line_witness :
    (Execute (echoBehavior [104, 105]) [104, 105]).1 = .ok [104, 105] :=
  (c5_round_trip_single_line [104, 105] (by decide) (by decide)
    (by decide)).1

/-- C9: if the first line the child writes to stdout is longer than
65536 bytes (`bufio.MaxScanTokenSize`), `Execute` returns an error
rather than the line, and no successful call ever returns an output
longer than 65536 bytes. -/
theorem c9_scanner_token_bound (b : ChildBehavior) (input : List Nat) :
    (maxScanTokenSize < firstLineLength b.stdoutData →
      ∃ e, (Execute b input).1 = .error e) ∧
    (∀ out : List Nat, (Execute b input).1 = .ok out →
      out.length ≤ maxScanTokenSize) := by
  constructor
  · intro h
    cases hE : (Execute b input).1 with
    | error e => exact ⟨e, rfl⟩
    | ok out =>
        have hscan := Execute_ok_scan b input out hE
        rw [scanFirstLine_error_of_long b.stdoutData h] at hscan
        exact absurd hscan (by simp)
  · intro out hout
    exact scanFirstLine_length_le b.stdoutData out
      (Execute_ok_scan b input out hout)

theorem c9_scanner_token_bound_witness :
    ∃ e, (Execute bigLineChild []).1 = .error e :=
  (c9_scanner_token_bound bigLineChild []).1 (by
    have hmem : 10 ∉ List.replicate 65537 97 := by
      rw [List.mem_replicate]
      intro h
      exact absurd h.2 (by decide)
    have hf : findNewline (List.replicate 65537 97) = none :=
      findNewline_eq_none _ hmem
    show maxScanTokenSize < firstLineLength (List.replicate 65537 97)
    rw [firstLineLength, hf, Option.getD_none, List.length_replicate]
    decide)

/-! ## Association-list model of Go string maps

A Go `map[string]string` is embedded as a list of key/value entries in
insertion order with unique keys; `mapGet` is map indexing (`m[k]`),
`mapSet` is map assignment (`m[k] = v`), and `mapSetAll` is a
`for k, v := range src { dst[k] = v }` loop. -/

def mapGet : List (String × String) → String → Option String
  | [], _ => none
  | (k', v) :: rest, k => if k' = k then some v else mapGet rest k

/-- Go map assignment `m[k] = v`: replaces the entry for `k` when
present, otherwise adds one (a Go map holds one entry per key). -/
def mapSet : List (String × String) → String → String → List (String × String)
  | [], k, v => [(k, v)]
  | (k', v') :: rest, k, v =>
      if k' = k then (k, v) :: rest else (k', v') :: mapSet rest k v

def mapKeys (m : List (String × String)) : List String := m.map Prod.fst

/-- A `for k, v := range src { dst[k] = v }` loop over the entries of
`src`, updating `dst`. -/
def mapSetAll : List (String × String) → List (String × String) →
    List (String × String)
  | base, [] => base
  | base, (k, v) :: rest => mapSetAll (mapSet base k v) rest

theorem mapGet_eq_none_iff (m : List (String × String)) (k : String) :
    mapGet m k = none ↔ k ∉ mapKeys m := by
  induction m with
  | nil => simp [mapGet, mapKeys]
  | cons p rest ih =>
      obtain ⟨k', v⟩ := p
      by_cases h : k' = k
      · subst h
        simp [mapGet, mapKeys]
      · have h' : k ≠ k' := fun e => h e.symm
        simp [mapGet, mapKeys, h, h', ih]

theorem mapGet_mapSet_self (m : List (String × String)) (k v : String) :
    mapGet (mapSet m k v) k = some v := by
  induction m with
  | nil => simp [mapSet, mapGet]
  | cons p rest ih =>
      obtain ⟨k', v'⟩ := p
      by_cases h : k' = k
      · subst h
        simp [mapSet, mapGet]
      · simp [mapSet, mapGet, h, ih]

theorem mapGet_mapSet_ne (m : List (String × String)) (k v k' : String)
    (h : k' ≠ k) : mapGet (mapSet m k v) k' = mapGet m k' := by
  have h' : ¬ k = k' := fun e => h e.symm
  induction m with
  | nil => simp [mapSet, mapGet, h']
  | cons p rest ih =>
      obtain ⟨k0, v0⟩ := p
      by_cases h0 : k0 = k
      · subst h0
        simp [mapSet, mapGet, h']
      · simp [mapSet, mapGet, h0, ih]

theorem mapKeys_cons (k v : String) (rest : List (String × String)) :
    mapKeys ((k, v) :: rest) = k :: mapKeys rest := rfl

theorem mem_mapKeys_mapSet (m : List (String × String)) (k v x : String) :
    x ∈ mapKeys (mapSet m k v) ↔ x ∈ mapKeys m ∨ x = k := by
  induction m with
  | nil => simp [mapSet, mapKeys]
  | cons p rest ih =>
      obtain ⟨k0, v0⟩ := p
      by_cases h0 : k0 = k
      · subst h0
        have he : mapSet ((k0, v0) :: rest) k0 v = (k0, v) :: rest := by
          simp [mapSet]
        rw [he, mapKeys_cons, mapKeys_cons]
        simp only [List.mem_cons]
        tauto
      · have he : mapSet ((k0, v0) :: rest) k v =
            (k0, v0) :: mapSet rest k v := by
          simp [mapSet, h0]
        rw [he, mapKeys_cons, mapKeys_cons]
        simp only [List.mem_cons, ih]
        tauto

theorem nodup_mapKeys_mapSet (m : List (String × String)) (k v : String)
    (h : (mapKeys m).Nodup) : (mapKeys (mapSet m k v)).Nodup := by
  induction m with
  | nil => simp [mapSet, mapKeys]
  | cons p rest ih =>
      obtain ⟨k0, v0⟩ := p
      rw [mapKeys_cons, List.nodup_cons] at h
      by_cases h0 : k0 = k
      · subst h0
        have he : mapSet ((k0, v0) :: rest) k0 v = (k0, v) :: rest := by
          simp [mapSet]
        rw [he, mapKeys_cons, List.nodup_cons]
        exact h
      · have he : mapSet ((k0, v0) :: rest) k v =
            (k0, v0) :: mapSet rest k v := by
          simp [mapSet, h0]
        rw [he, mapKeys_cons, List.nodup_cons]
        refine ⟨?_, ih h.2⟩
        intro hx
        rcases (mem_mapKeys_mapSet rest k v k0).mp hx with hmem | heq
        · exact h.1 hmem
        · exact h0 heq

theorem mapGet_mapSetAll_of_none (entries : List (String × String))
    (k : String) (h : mapGet entries k = none)
    (base : List (String × String)) :
    mapGet (mapSetAll base entries) k = mapGet base k := by
  induction entries generalizing base with
  | nil => simp [mapSetAll]
  | cons p rest ih =>
      obtain ⟨k0, v0⟩ := p
      have h0 : ¬ k0 = k := by
        intro e
        subst e
        simp [mapGet] at h
      have hr : mapGet rest k = none := by
        simpa [mapGet, h0] using h
      show mapGet (mapSetAll (mapSet base k0 v0) rest) k = mapGet base k
      rw [ih hr (mapSet base k0 v0)]
      exact mapGet_mapSet_ne base k0 v0 k (fun e => h0 e.symm)

theorem mapGet_mapSetAll_of_some (entries : List (String × String))
    (hN : (mapKeys entries).Nodup) (k v : String)
    (h : mapGet entries k = some v) (base : List (String × String)) :
    mapGet (mapSetAll base entries) k = some v := by
  induction entries generalizing base with
  | nil => simp [mapGet] at h
  | cons p rest ih =>
      obtain ⟨k0, v0⟩ := p
      rw [mapKeys_cons, List.nodup_cons] at hN
      by_cases h0 : k0 = k
      · subst h0
        have hv : v0 = v := by simpa [mapGet] using h
        have hr : mapGet rest k0 = none :=
          (mapGet_eq_none_iff rest k0).mpr hN.1
        show mapGet (mapSetAll (mapSet base k0 v0) rest) k0 = some v
        rw [mapGet_mapSetAll_of_none rest k0 hr (mapSet base k0 v0),
          mapGet_mapSet_self, hv]
      · have hr : mapGet rest k = some v := by
          simpa [mapGet, h0] using h
        show mapGet (mapSetAll (mapSet base k0 v0) rest) k = some v
        exact ih hN.2 hr (mapSet base k0 v0)

/-! ## The header mapper (`internal/headers/parser.go`) -/

/-- The environment-mapping loop of `ParseCustomHeaders`:
`for headerName, envName := range envMapping { if value :=
headers.Get(headerName); value != "" { envVars[envName] = value } }`.
`hGet` models `headers.Get`, returning `""` for an absent header as Go
does; the mapping is carried as its entry list, the Go map's iteration
order being one such list. -/
def parseEnvLoop (hGet : String → String) :
    List (String × String) → List (String × String) →
    List (String × String)
  | acc, [] => acc
  | acc, (headerName, envName) :: rest =>
      parseEnvLoop hGet
        (if hGet headerName = "" then acc
         else mapSet acc envName (hGet headerName)) rest

/-- The argument-mapping loop of `ParseCustomHeaders`:
`for headerName, argName := range argMapping { if value :=
headers.Get(headerName); value != "" { args = append(args,
"--"+argName, value) } }`. -/
def parseArgLoop (hGet : String → String) :
    List (String × String) → List String
  | [] => []
  | (headerName, argName) :: rest =>
      (if hGet headerName = "" then []
       else ["--" ++ argName, hGet headerName])
        ++ parseArgLoop hGet rest

/-- Shallow embedding of `headers.ParseCustomHeaders(headers,
envMapping, argMapping)`: returns the environment-variable overrides and
the extra argument list derived from the request headers.  Total by
construction — the Go function performs no I/O and cannot fail. -/
def ParseCustomHeaders (hGet : String → String)
    (envMapping argMapping : List (String × String)) :
    List (String × String) × List String :=
  (parseEnvLoop hGet [] envMapping, parseArgLoop hGet argMapping)

theorem parseEnvLoop_keys_nodup (hGet : String → String)
    (mapping acc : List (String × String))
    (h : (mapKeys acc).Nodup) :
    (mapKeys (parseEnvLoop hGet acc mapping)).Nodup := by
  induction mapping generalizing acc with
  | nil => exact h
  | cons p rest ih =>
      obtain ⟨headerName, envName⟩ := p
      show (mapKeys (parseEnvLoop hGet
        (if hGet headerName = "" then acc
         else mapSet acc envName (hGet headerName)) rest)).Nodup
      by_cases hv : hGet headerName = ""
      · rw [if_pos hv]
        exact ih acc h
      · rw [if_neg hv]
        exact ih _ (nodup_mapKeys_mapSet acc envName (hGet headerName) h)

/-- Keys whose name is no mapping entry's target are untouched by the
environment-mapping loop. -/
theorem parseEnvLoop_frame (hGet : String → String)
    (mapping : List (String × String)) (e : String)
    (he : e ∉ mapping.map Prod.snd) (acc : List (String × String)) :
    mapGet (parseEnvLoop hGet acc mapping) e = mapGet acc e := by
  induction mapping generalizing acc with
  | nil => rfl
  | cons p rest ih =>
      obtain ⟨headerName, envName⟩ := p
      have hne : e ≠ envName := by
        intro hcontra
        exact he (by simp [hcontra])
      have he' : e ∉ rest.map Prod.snd := by
        intro hmem
        exact he (by simp [hmem])
      show mapGet (parseEnvLoop hGet
        (if hGet headerName = "" then acc
         else mapSet acc envName (hGet headerName)) rest) e = mapGet acc e
      by_cases hv : hGet headerName = ""
      · rw [if_pos hv]
        exact ih he' acc
      · rw [if_neg hv]
        rw [ih he' _]
        exact mapGet_mapSet_ne acc envName (hGet headerName) e hne

/-- Every mapping entry whose header carries a non-empty value ends up
in the override map, provided the mapping's target names are distinct
(a Go map iteration never yields the same key twice; distinct targets
rule out a later entry overwriting this one). -/
theorem parseEnvLoop_sets (hGet : String → String)
    (mapping : List (String × String))
    (hN : (mapping.map Prod.snd).Nodup)
    (headerName envName : String)
    (hmem : (headerName, envName) ∈ mapping)
    (hv : hGet headerName ≠ "") (acc : List (String × String)) :
    mapGet (parseEnvLoop hGet acc mapping) envName =
      some (hGet headerName) := by
  induction mapping generalizing acc with
  | nil => simp at hmem
  | cons p rest ih =>
      obtain ⟨h0, e0⟩ := p
      rw [List.map_cons, List.nodup_cons] at hN
      rcases List.mem_cons.mp hmem with hhead | htail
      · have hh : h0 = headerName := (Prod.mk.injEq _ _ _ _ ▸ hhead.symm).1
        have he : e0 = envName := (Prod.mk.injEq _ _ _ _ ▸ hhead.symm).2
        subst hh
        subst he
        show mapGet (parseEnvLoop hGet
          (if hGet h0 = "" then acc
           else mapSet acc e0 (hGet h0)) rest) e0 = some (hGet h0)
        rw [if_neg hv]
        rw [parseEnvLoop_frame hGet rest e0 hN.1 _]
        exact mapGet_mapSet_self acc e0 (hGet h0)
      · show mapGet (parseEnvLoop hGet
          (if hGet h0 = "" then acc
           else mapSet acc e0 (hGet h0)) rest) envName =
            some (hGet headerName)
        by_cases hv0 : hGet h0 = ""
        · rw [if_pos hv0]
          exact ih hN.2 htail acc
        · rw [if_neg hv0]
          exact ih hN.2 htail _

/-- Everything in the override map came from a mapping entry whose
header carried a non-empty value, or was already in the accumulator. -/
theorem parseEnvLoop_complete (hGet : String → String)
    (mapping : List (String × String)) (e v : String)
    (acc : List (String × String))
    (h : mapGet (parseEnvLoop hGet acc mapping) e = some v) :
    (∃ headerName, (headerName, e) ∈ mapping ∧ hGet headerName = v ∧
      v ≠ "") ∨ mapGet acc e = some v := by
  induction mapping generalizing acc with
  | nil => exact Or.inr h
  | cons p rest ih =>
      obtain ⟨h0, e0⟩ := p
      rw [show parseEnvLoop hGet acc ((h0, e0) :: rest) =
        parseEnvLoop hGet
          (if hGet h0 = "" then acc else mapSet acc e0 (hGet h0)) rest
        from rfl] at h
      rcases ih _ h with hfound | hacc
      · obtain ⟨hn, hmem, hval, hne⟩ := hfound
        exact Or.inl ⟨hn, List.mem_cons_of_mem _ hmem, hval, hne⟩
      · by_cases hv0 : hGet h0 = ""
        · rw [if_pos hv0] at hacc
          exact Or.inr hacc
        · rw [if_neg hv0] at hacc
          by_cases he : e = e0
          · subst he
            rw [mapGet_mapSet_self] at hacc
            have hvv : hGet h0 = v := Option.some.injEq _ _ ▸ hacc
            exact Or.inl ⟨h0, List.mem_cons_self _ _,
              hvv, hvv ▸ hv0⟩
          · rw [mapGet_mapSet_ne acc e0 (hGet h0) e he] at hacc
            exact Or.inr hacc

/-- Every mapping entry whose header carries a non-empty value
contributes `--<argName>` immediately followed by the header value to
the argument list. -/
theorem parseArgLoop_adjacent (hGet : String → String)
    (mapping : List (String × String)) (headerName argName : String)
    (hmem : (headerName, argName) ∈ mapping)
    (hv : hGet headerName ≠ "") :
    ∃ i, (parseArgLoop hGet mapping).get? i = some ("--" ++ argName) ∧
      (parseArgLoop hGet mapping).get? (i + 1) =
        some (hGet headerName) := by
  induction mapping with
  | nil => simp at hmem
  | cons p rest ih =>
      obtain ⟨h0, a0⟩ := p
      rcases List.mem_cons.mp hmem with hhead | htail
      · have hh : h0 = headerName := (Prod.mk.injEq _ _ _ _ ▸ hhead.symm).1
        have ha : a0 = argName := (Prod.mk.injEq _ _ _ _ ▸ hhead.symm).2
        subst hh
        subst ha
        refine ⟨0, ?_, ?_⟩
        · show ((if hGet h0 = "" then []
            else ["--" ++ a0, hGet h0]) ++ parseArgLoop hGet rest).get? 0 =
              some ("--" ++ a0)
          rw [if_neg hv]
          rfl
        · show ((if hGet h0 = "" then []
            else ["--" ++ a0, hGet h0]) ++ parseArgLoop hGet rest).get? 1 =
              some (hGet h0)
          rw [if_neg hv]
          rfl
      · obtain ⟨i, hi, hi1⟩ := ih htail
        refine ⟨(if hGet h0 = "" then ([] : List String)
          else ["--" ++ a0, hGet h0]).length + i, ?_, ?_⟩
        · show ((if hGet h0 = "" then []
            else ["--" ++ a0, hGet h0]) ++ parseArgLoop hGet rest).get?
              ((if hGet h0 = "" then ([] : List String)
                else ["--" ++ a0, hGet h0]).length + i) =
              some ("--" ++ argName)
          rw [List.get?_append_right (Nat.le_add_right _ _),
            Nat.add_sub_cancel_left]
          exact hi
        · show ((if hGet h0 = "" then []
            else ["--" ++ a0, hGet h0]) ++ parseArgLoop hGet rest).get?
              ((if hGet h0 = "" then ([] : List String)
                else ["--" ++ a0, hGet h0]).length + i + 1) =
              some (hGet headerName)
          rw [Nat.add_assoc,
            List.get?_append_right (Nat.le_add_right _ _),
            Nat.add_sub_cancel_left]
          exact hi1

/-- The parser only reads the headers named in the two mapping tables:
two header functions agreeing on those names produce equal results. -/
theorem parseLoops_respect_mapped_headers (hGet hGet2 : String → String)
    (envMapping argMapping : List (String × String))
    (henv : ∀ p ∈ envMapping, hGet p.1 = hGet2 p.1)
    (harg : ∀ p ∈ argMapping, hGet p.1 = hGet2 p.1) :
    ParseCustomHeaders hGet envMapping argMapping =
      ParseCustomHeaders hGet2 envMapping argMapping := by
  unfold ParseCustomHeaders
  have he : ∀ acc, parseEnvLoop hGet acc envMapping =
      parseEnvLoop hGet2 acc envMapping := by
    induction envMapping with
    | nil => intro acc; rfl
    | cons p rest ih =>
        intro acc
        obtain ⟨h0, e0⟩ := p
        have hh : hGet h0 = hGet2 h0 := henv (h0, e0) (List.mem_cons_self _ _)
        show parseEnvLoop hGet
            (if hGet h0 = "" then acc else mapSet acc e0 (hGet h0)) rest =
          parseEnvLoop hGet2
            (if hGet2 h0 = "" then acc else mapSet acc e0 (hGet2 h0)) rest
        rw [hh]
        exact ih (fun p hp => henv p (List.mem_cons_of_mem _ hp)) _
  have ha : parseArgLoop hGet argMapping = parseArgLoop hGet2 argMapping := by
    induction argMapping with
    | nil => rfl
    | cons p rest ih =>
        obtain ⟨h0, a0⟩ := p
        have hh : hGet h0 = hGet2 h0 := harg (h0, a0) (List.mem_cons_self _ _)
        show (if hGet h0 = "" then []
            else ["--" ++ a0, hGet h0]) ++ parseArgLoop hGet rest =
          (if hGet2 h0 = "" then []
            else ["--" ++ a0, hGet2 h0]) ++ parseArgLoop hGet2 rest
        rw [hh, ih (fun p hp => harg p (List.mem_cons_of_mem _ hp))]
  rw [he, ha]

/-! ## The HTTP proxy (`internal/proxy/server.go`) -/

/-- The process-wide configuration, built once at startup and shared
read-only across request handlers.  The Go maps are carried as their
entry lists. -/
structure Config where
  command : String
  args : List String
  defaultEnv : List (String × String)
  headerEnvMapping : List (String × String)
  headerArgMapping : List (String × String)

/-- One inbound HTTP request to `/mcp`: its method, its header lookup
(`r.Header` through `headers.Get`, `""` when absent) and the outcome of
`io.ReadAll(r.Body)`. -/
structure Request where
  method : String
  hGet : String → String
  bodyResult : Except String (List Nat)

inductive RespBody
  | text (s : String)
  | bytes (bs : List Nat)
deriving DecidableEq, Repr

structure Response where
  status : Nat
  contentType : Option String
  body : RespBody
deriving DecidableEq, Repr

/-- The executor invocation `handleMCP` makes: the command, the merged
argument list, the merged environment and the request body passed to
`process.NewExecutor(...)` / `executor.Execute(ctx, body)`. -/
structure ExecCall where
  command : String
  args : List String
  env : List (String × String)
  input : List Nat
deriving DecidableEq, Repr

/-- Shallow embedding of `(s *Server) handleMCP(w, r)`.  Transliterated
from the source: copy the default environment into a fresh map, parse
the custom headers, overlay the header-derived variables (header values
win), append the header-derived arguments after the configured base
arguments (`append(s.cfg.Args, headerArgs...)` — a value concatenation
that leaves `cfg.Args` unchanged), read the body (`400 Failed to read
body` on failure), run the executor (`500 Process execution failed` on
any error) and otherwise answer 200 with the executor's output as an
`application/json` body.  The handler never inspects `r.Method`, and
`NewServer` registers it with `mux.HandleFunc("/mcp", s.handleMCP)`,
a pattern with no method restriction.  The configuration is returned
unchanged as the first component: the source never writes to `s.cfg`,
so the shared configuration's post-state equals its pre-state. -/
def handleMCP (cfg : Config) (b : ChildBehavior) (req : Request) :
    Config × Option ExecCall × Response :=
  let envVars0 := mapSetAll [] cfg.defaultEnv
  let p := ParseCustomHeaders req.hGet cfg.headerEnvMapping cfg.headerArgMapping
  let envVars := mapSetAll envVars0 p.1
  let args := cfg.args ++ p.2
  match req.bodyResult with
  | .error _ =>
      (cfg, none,
       { status := 400, contentType := some "text/plain; charset=utf-8",
         body := .text "Failed to read body\n" })
  | .ok body =>
      let call : ExecCall :=
        { command := cfg.command, args := args, env := envVars,
          input := body }
      match (Execute b body).1 with
      | .error _ =>
          (cfg, some call,
           { status := 500,
             contentType := some "text/plain; charset=utf-8",
             body := .text "Process execution failed\n" })
      | .ok out =>
          (cfg, some call,
           { status := 200, contentType := some "application/json",
             body := .bytes out })

/-- Setting every entry of a unique-keyed entry list into an empty map
reproduces lookup in the entry list. -/
theorem mapGet_mapSetAll_nil_base (entries : List (String × String))
    (hN : (mapKeys entries).Nodup) (k : String) :
    mapGet (mapSetAll [] entries) k = mapGet entries k := by
  cases h : mapGet entries k with
  | some v => exact mapGet_mapSetAll_of_some entries hN k v h []
  | none =>
      rw [mapGet_mapSetAll_of_none entries k h []]
      rfl

/-! ## Claims about the header mapper and the proxy -/

/-- C6: for every handled request, the merged argument list is the
configured base arguments followed by the header-derived arguments in
that order, the merged environment is the default environment overlaid
by the header-derived overrides (header values win, untouched keys keep
their default), and the shared configuration is unchanged by the
merge — the handler builds a fresh environment map and a fresh argument
list and never writes to `s.cfg`. -/
theorem c6_merge_order_overlay_and_frame (cfg : Config)
    (b : ChildBehavior) (req : Request) (body : List Nat)
    (hbody : req.bodyResult = .ok body)
    (hnd : (mapKeys cfg.defaultEnv).Nodup) :
    (handleMCP cfg b req).1 = cfg ∧
    ∃ call, (handleMCP cfg b req).2.1 = some call ∧
      call.command = cfg.command ∧
      call.args = cfg.args ++
        (ParseCustomHeaders req.hGet cfg.headerEnvMapping
          cfg.headerArgMapping).2 ∧
      (∀ k v,
        mapGet (ParseCustomHeaders req.hGet cfg.headerEnvMapping
          cfg.headerArgMapping).1 k = some v →
        mapGet call.env k = some v) ∧
      (∀ k,
        mapGet (ParseCustomHeaders req.hGet cfg.headerEnvMapping
          cfg.headerArgMapping).1 k = none →
        mapGet call.env k = mapGet cfg.defaultEnv k) := by
  have hN : (mapKeys (ParseCustomHeaders req.hGet cfg.headerEnvMapping
      cfg.headerArgMapping).1).Nodup :=
    parseEnvLoop_keys_nodup req.hGet cfg.headerEnvMapping []
      (by simp [mapKeys])
  have hcall : (handleMCP cfg b req).2.1 = some
      { command := cfg.command,
        args := cfg.args ++ (ParseCustomHeaders req.hGet
          cfg.headerEnvMapping cfg.headerArgMapping).2,
        env := mapSetAll (mapSetAll [] cfg.defaultEnv)
          (ParseCustomHeaders req.hGet cfg.headerEnvMapping
            cfg.headerArgMapping).1,
        input := body } := by
    simp only [handleMCP, hbody]
    cases hE : (Execute b body).1 <;> rfl
  refine ⟨?_, ⟨_, hcall, rfl, rfl, ?_, ?_⟩⟩
  · simp only [handleMCP, hbody]
    cases hE : (Execute b body).1 <;> rfl
  · intro k v h
    exact mapGet_mapSetAll_of_some _ hN k v h _
  · intro k h
    rw [mapGet_mapSetAll_of_none _ k h _]
    exact mapGet_mapSetAll_nil_base cfg.defaultEnv hnd k

/-- A configuration like the Slack example in the repository README:
one base argument, one default environment entry, one
header-to-environment mapping and one header-to-argument mapping. -/
def cfgEx : Config :=
  { command := "slack-mcp-server",
    args := ["--stdio"],
    defaultEnv := [("SLACK_TEAM_ID", "T000")],
    headerEnvMapping := [("X-Slack-Token", "SLACK_TOKEN")],
    headerArgMapping := [("X-Team-Id", "team-id")] }

/-- A request carrying both mapped headers and the body `{}`. -/
def reqEx : Request :=
  { method := "POST",
    hGet := fun h =>
      if h = "X-Slack-Token" then "xoxp-1"
      else if h = "X-Team-Id" then "T1" else "",
    bodyResult := .ok [123, 125] }

/-- Witness for C6 at the concrete Slack-style configuration. -/
theorem c6_merge_order_overlay_and_frame_witness :
    (handleMCP cfgEx (echoBehavior [123, 125]) reqEx).1 = cfgEx ∧
    ∃ call,
      (handleMCP cfgEx (echoBehavior [123, 125]) reqEx).2.1 = some call ∧
      call.command = cfgEx.command ∧
      call.args = cfgEx.args ++
        (ParseCustomHeaders reqEx.hGet cfgEx.headerEnvMapping
          cfgEx.headerArgMapping).2 ∧
      (∀ k v,
        mapGet (ParseCustomHeaders reqEx.hGet cfgEx.headerEnvMapping
          cfgEx.headerArgMapping).1 k = some v →
        mapGet call.env k = some v) ∧
      (∀ k,
        mapGet (ParseCustomHeaders reqEx.hGet cfgEx.headerEnvMapping
          cfgEx.headerArgMapping).1 k = none →
        mapGet call.env k = mapGet cfgEx.defaultEnv k) :=
  c6_merge_order_overlay_and_frame cfgEx (echoBehavior [123, 125]) reqEx
    [123, 125] rfl (by decide)

/-- Header lookup carrying distinct non-empty values for the headers
`X-A` and `X-B`. -/
def dupGet : String → String :=
  fun h => if h = "X-A" then "va" else if h = "X-B" then "vb" else ""

/-- C7 counterexample: the claim quantifies over every pair of mapping
tables, but with two entries targeting the same environment variable —
reachable, since the env mapping is keyed by header name and startup
validation only rejects `=` inside values, never duplicate targets —
the entry iterated later overwrites the earlier one.  Here both `X-A`
and `X-B` map to `FOO` and both carry non-empty values; the entry
`(X-A, FOO)` has the non-empty value `va`, yet `envOverrides[FOO]` is
`vb`, not `va`, so "envOverrides[envName] = value exactly for each
(headerName, envName) in the env mapping whose header carries a
non-empty value" fails as stated. -/
theorem c7_counterexample_duplicate_targets :
    ("X-A", "FOO") ∈ [("X-A", "FOO"), ("X-B", "FOO")] ∧
    dupGet "X-A" = "va" ∧ dupGet "X-A" ≠ "" ∧
    mapGet (ParseCustomHeaders dupGet
      [("X-A", "FOO"), ("X-B", "FOO")] []).1 "FOO" = some "vb" ∧
    mapGet (ParseCustomHeaders dupGet
      [("X-A", "FOO"), ("X-B", "FOO")] []).1 "FOO" ≠
      some (dupGet "X-A") :=
  ⟨by decide, rfl, by decide, rfl, by decide⟩

/-- C7 amended: `ParseCustomHeaders` sets `envOverrides[envName]` to
the header value exactly for the env-mapping entries whose header is
non-empty, provided the mapping's target environment-variable names are
pairwise distinct — with duplicate targets the entry iterated last
wins, as the counterexample shows.  Stated in both directions: every
such entry is set, and everything set stems from such an entry (the
completeness direction needs no proviso); every arg-mapping entry whose
header is non-empty contributes `--argName` immediately followed by the
literal value; headers outside the two mapping tables are ignored;
empty mapping tables yield empty results.  The function is total — it
performs no I/O and cannot fail — and returns fresh values. -/
theorem c7_parse_custom_headers_contract (hGet hGet2 : String → String)
    (envMapping argMapping : List (String × String)) :
    (∀ headerName envName, (envMapping.map Prod.snd).Nodup →
        (headerName, envName) ∈ envMapping → hGet headerName ≠ "" →
        mapGet (ParseCustomHeaders hGet envMapping argMapping).1 envName =
          some (hGet headerName)) ∧
    (∀ envName v,
        mapGet (ParseCustomHeaders hGet envMapping argMapping).1 envName =
          some v →
        ∃ headerName, (headerName, envName) ∈ envMapping ∧
          hGet headerName = v ∧ v ≠ "") ∧
    (∀ headerName argName, (headerName, argName) ∈ argMapping →
        hGet headerName ≠ "" →
        ∃ i, (ParseCustomHeaders hGet envMapping argMapping).2.get? i =
            some ("--" ++ argName) ∧
          (ParseCustomHeaders hGet envMapping argMapping).2.get? (i + 1) =
            some (hGet headerName)) ∧
    ((∀ p ∈ envMapping, hGet p.1 = hGet2 p.1) →
      (∀ p ∈ argMapping, hGet p.1 = hGet2 p.1) →
      ParseCustomHeaders hGet envMapping argMapping =
        ParseCustomHeaders hGet2 envMapping argMapping) ∧
    ParseCustomHeaders hGet [] [] = ([], []) := by
  refine ⟨?_, ?_, ?_, ?_, rfl⟩
  · intro headerName envName hN hmem hv
    exact parseEnvLoop_sets hGet envMapping hN headerName envName hmem hv []
  · intro envName v h
    rcases parseEnvLoop_complete hGet envMapping envName v [] h with
      hf | habs
    · exact hf
    · simp [mapGet] at habs
  · intro headerName argName hmem hv
    exact parseArgLoop_adjacent hGet argMapping headerName argName hmem hv
  · intro h1 h2
    exact parseLoops_respect_mapped_headers hGet hGet2 envMapping
      argMapping h1 h2

/-- Header lookup for a request carrying only `X-Slack-Token`. -/
def slackGet : String → String :=
  fun h => if h = "X-Slack-Token" then "xoxp-1" else ""

/-- Witness for C7: the §8 spec example — env mapping
`X-Slack-Token → SLACK_TOKEN`, no arg mapping, header value `xoxp-1`. -/
theorem c7_parse_custom_headers_contract_witness :
    mapGet (ParseCustomHeaders slackGet
      [("X-Slack-Token", "SLACK_TOKEN")] []).1 "SLACK_TOKEN" =
      some (slackGet "X-Slack-Token") :=
  (c7_parse_custom_headers_contract slackGet slackGet
    [("X-Slack-Token", "SLACK_TOKEN")] []).1
    "X-Slack-Token" "SLACK_TOKEN" (by decide) (by decide) (by decide)

/-- C8: a request whose body read fails is answered 400 with the fixed
plain-text error, and a request whose subprocess execution fails — for
any reason whatever and whatever the child wrote to stderr — is
answered 500 with the fixed generic message, never the stderr text:
the 500 body is a constant independent of the behavior `b` and the
error. -/
theorem c8_response_statuses (cfg : Config) (b : ChildBehavior)
    (req : Request) :
    (∀ e, req.bodyResult = .error e →
      (handleMCP cfg b req).2.2 =
        { status := 400, contentType := some "text/plain; charset=utf-8",
          body := .text "Failed to read body\n" }) ∧
    (∀ body err, req.bodyResult = .ok body →
      (Execute b body).1 = .error err →
      (handleMCP cfg b req).2.2 =
        { status := 500, contentType := some "text/plain; charset=utf-8",
          body := .text "Process execution failed\n" }) := by
  constructor
  · intro e he
    simp only [handleMCP, he]
  · intro body err hb hE
    simp only [handleMCP, hb, hE]

/-- A request whose body cannot be read. -/
def badBodyReq : Request :=
  { method := "POST", hGet := fun _ => "",
    bodyResult := .error "unexpected EOF" }

/-- A request with an empty body and no mapped headers. -/
def okBodyReq : Request :=
  { method := "POST", hGet := fun _ => "", bodyResult := .ok [] }

/-- Witness for C8: a failed body read answers 400, and a child that
exits 1 after writing `boom` to stderr answers 500 with the fixed
message. -/
theorem c8_response_statuses_witness :
    (handleMCP cfgEx failingChild badBodyReq).2.2 =
      { status := 400, contentType := some "text/plain; charset=utf-8",
        body := .text "Failed to read body\n" } ∧
    (handleMCP cfgEx failingChild okBodyReq).2.2 =
      { status := 500, contentType := some "text/plain; charset=utf-8",
        body := .text "Process execution failed\n" } :=
  ⟨(c8_response_statuses cfgEx failingChild badBodyReq).1
      "unexpected EOF" rfl,
   (c8_response_statuses cfgEx failingChild okBodyReq).2 []
      (.processWait "exit status 1") rfl rfl⟩

/-- C10: `handleMCP` performs no HTTP-method check — two requests
identical except for their method (GET, PUT, DELETE, POST, anything)
produce the same configuration post-state, the same executor invocation
and the same response: the handler never reads `r.Method`, and the
route is registered with `mux.HandleFunc("/mcp", ...)`, which restricts
no method. -/
theorem c10_no_method_check (cfg : Config) (b : ChildBehavior)
    (m m2 : String) (hGet : String → String)
    (bodyResult : Except String (List Nat)) :
    handleMCP cfg b { method := m, hGet := hGet, bodyResult := bodyResult } =
      handleMCP cfg b
        { method := m2, hGet := hGet, bodyResult := bodyResult } := rfl

end Tumiki
